import Mathlib

/-!
# Torque2D Leap Motion input manager

A shallow embedding of `engine/source/input/leapMotion/leapMotionManager.cc` and the
properties of its per-frame translation pipeline.

* The manager object is a record of its five data members; member functions are
  functions on that record.  `mActiveMutex` only serialises accesses, it carries no data,
  so lock and unlock are identities here.  The static configuration variables
  (`smGenerateIndividualEvents` and the others registered by `staticInit`) are never read
  by the member functions and are left out.
* The engine side (canvas cursor, event queue, console, `delete` calls) is the record
  `World`, threaded through every operation that has an effect.
* The Leap SDK snapshot read through `const Leap::Controller&` is the record `Controller`.
* `float` is IEEE-754 binary32 with round-to-nearest-even, every operation rounded to
  binary32 (`FLT_EVAL_METHOD = 0`, as with SSE or NEON code generation).
-/

set_option exponentiation.threshold 1024
set_option maxRecDepth 100000

/-! ## binary32 arithmetic -/

/-- A binary32 datum.  `finite neg mag` is the number `(-1)^neg * mag * 2^(-149)`:
every finite binary32 value is a multiple of the least subnormal `2^(-149)`, so the
magnitude is stored as the count `mag` of such units (`mag = 0` with `neg = true` is
`-0.0`).  The values that occur have `mag < 2^277` and at most 24 significant bits. -/
inductive F32
  | finite (neg : Bool) (mag : Nat)
  | inf (neg : Bool)
  | nan
  deriving DecidableEq, Repr

/-- Number of binary digits of `n`, by repeated halving; `fuel` bounds the number of
halvings and `fuel = n` always suffices. -/
def bitLengthAux : Nat → Nat → Nat
  | 0, _ => 0
  | fuel + 1, n => if n = 0 then 0 else bitLengthAux fuel (n / 2) + 1

/-- Number of binary digits of `n` (`0` for `n = 0`). -/
def bitLength (n : Nat) : Nat := bitLengthAux n n

/-- Magnitude, in units of `2^(-149)`, of the binary32 value nearest to the exact
magnitude `n * 2^(-149 - d)`, ties to even, with unbounded exponent.  `s` low bits of
`n` are dropped: at least `d`, so that the result is a multiple of `2^(-149)`, and at
least enough to leave a 24-bit significand `q`; the dropped part `r` decides whether `q`
is incremented. -/
def roundMag (n d : Nat) : Nat :=
  let s := max d (bitLength n - 24)
  let q := n / 2 ^ s
  let r := n % 2 ^ s
  let q' := if 2 ^ s < 2 * r ∨ (2 * r = 2 ^ s ∧ q % 2 = 1) then q + 1 else q
  q' * 2 ^ (s - d)

/-- Round the exact value `(-1)^neg * n * 2^(-149 - d)` to binary32, nearest with ties
to even.  A rounded magnitude of `2^128` or more overflows to infinity. -/
def roundNearestEven (neg : Bool) (n d : Nat) : F32 :=
  if roundMag n d < 2 ^ 277 then F32.finite neg (roundMag n d) else F32.inf neg

/-- The constant `1.0f`. -/
def F32.one : F32 := F32.finite false (2 ^ 149)

/-- The constant `0.5f`. -/
def F32.half : F32 := F32.finite false (2 ^ 148)

/-- The constant `0.0f`. -/
def F32.zero : F32 := F32.finite false 0

/-- Conversion `int -> float` (the usual arithmetic conversion applied to
`screen.widthPixels()` and `screen.heightPixels()`). -/
def F32.ofInt (i : Int) : F32 :=
  roundNearestEven (decide (i < 0)) (i.natAbs * 2 ^ 149) 0

/-- Product `a * b` of two floats. -/
def F32.mul : F32 → F32 → F32
  | F32.nan, _ => F32.nan
  | _, F32.nan => F32.nan
  | F32.finite s a, F32.finite t b => roundNearestEven (xor s t) (a * b) 149
  | F32.finite s a, F32.inf t => if a = 0 then F32.nan else F32.inf (xor s t)
  | F32.inf s, F32.finite t b => if b = 0 then F32.nan else F32.inf (xor s t)
  | F32.inf s, F32.inf t => F32.inf (xor s t)

/-- Signed count of `2^(-149)` units of a finite value. -/
def F32.signedMag (neg : Bool) (mag : Nat) : Int :=
  if neg then -(mag : Int) else (mag : Int)

/-- Difference `a - b` of two floats.  An exact zero difference is `+0.0`, except
`(-0.0) - (+0.0) = -0.0`. -/
def F32.sub : F32 → F32 → F32
  | F32.nan, _ => F32.nan
  | _, F32.nan => F32.nan
  | F32.finite s a, F32.finite t b =>
    let x : Int := F32.signedMag s a - F32.signedMag t b
    if x = 0 then F32.finite (s && !t) 0
    else roundNearestEven (decide (x < 0)) x.natAbs 0
  | F32.finite _ _, F32.inf t => F32.inf (!t)
  | F32.inf s, F32.finite _ _ => F32.inf s
  | F32.inf s, F32.inf t => if s = t then F32.nan else F32.inf s

/-- Whether the datum is a finite number (neither NaN nor an infinity). -/
def F32.isFinite : F32 → Bool
  | F32.finite _ _ => true
  | _ => false

/-- Whether the datum is a number of the interval `[0, 1]` (`-0.0` included, as it
compares equal to zero). -/
def F32.inUnitInterval : F32 → Bool
  | F32.finite neg mag => mag == 0 || (!neg && decide (mag ≤ 2 ^ 149))
  | _ => false

/-- The integer obtained by discarding the fractional part (truncation toward zero).
Infinities and NaN have no integer part; the value `0` is returned for them. -/
def F32.truncate : F32 → Int
  | F32.finite neg mag => F32.signedMag neg (mag / 2 ^ 149)
  | _ => 0

/-- Conversion `float -> unsigned int`: the truncated value when it fits 32 bits.
C++ leaves the conversion of any other value undefined; there this model takes the
truncated value modulo `2^32`. -/
def F32.toU32 (f : F32) : Nat := (f.truncate % 2 ^ 32).toNat

/-- Conversion `unsigned int -> S32` (two's complement reinterpretation). -/
def toS32 (u : Nat) : Int :=
  if u % 2 ^ 32 < 2 ^ 31 then ((u % 2 ^ 32 : Nat) : Int) else ((u % 2 ^ 32 : Nat) : Int) - 2 ^ 32

/-! ## Leap SDK snapshot -/

/-- `Leap::Vector`: three float components. -/
structure Vector where
  x : F32
  y : F32
  z : F32
  deriving DecidableEq, Repr

/-- `Leap::Vector::isValid`: true only if all components are finite. -/
def Vector.isValid (v : Vector) : Bool :=
  v.x.isFinite && v.y.isFinite && v.z.isFinite

/-- `Leap::Screen`: a calibrated screen with its resolution (both `int` in the SDK). -/
structure Screen where
  id : Nat
  widthPixels : Int
  heightPixels : Int
  deriving DecidableEq, Repr

/-- `Leap::Pointable`: a tracked finger or tool (`Leap::Finger` is a `Pointable`). -/
structure Pointable where
  id : Nat
  deriving DecidableEq, Repr

/-- `Leap::Hand` with its finger list and its pointable list (fingers and tools). -/
structure Hand where
  fingers : List Pointable
  pointables : List Pointable
  deriving DecidableEq, Repr

/-- `Leap::Frame`. -/
structure Frame where
  hands : List Hand
  deriving DecidableEq, Repr

/-- What the code reads through `const Leap::Controller&`: the calibrated screens, the
current frame and, for `Leap::Screen::intersect(pointable, true, 1.0f)`, the
intersection point the SDK computes for a screen and a pointable. -/
structure Controller where
  calibratedScreens : List Screen
  frame : Frame
  intersect : Screen → Pointable → Vector

/-- Pixel column of a normalized intersection `v` on `screen`: the truncation of the
binary32 product of the width, converted to binary32, and `v.x`. -/
def pixelX (screen : Screen) (v : Vector) : Int :=
  (F32.mul (F32.ofInt screen.widthPixels) v.x).truncate

/-- Pixel row of a normalized intersection `v` on `screen`: the truncation of the
binary32 product of the height, converted to binary32, and the binary32 difference
`1.0f - v.y`. -/
def pixelY (screen : Screen) (v : Vector) : Int :=
  (F32.mul (F32.ofInt screen.heightPixels) (F32.sub F32.one v.y)).truncate

/-! ## Engine side -/

/-- `Point2I`: a point with `S32` coordinates. -/
structure Point2I where
  x : Int
  y : Int
  deriving DecidableEq, Repr

/-- Events that can be posted with `Game->postEvent`.  `mouseMove` is a
`MouseMoveEvent` with its `xPos` and `yPos` (the code leaves `modifier` unset);
`input` is the `InputEvent` of the raw hand and finger path. -/
inductive Event
  | mouseMove (xPos yPos : Int)
  | input
  deriving DecidableEq, Repr

/-- An address returned by `new`. -/
abbrev Ptr := Nat

/-- A `delete` executed by the manager, tagged with the member it was applied to. -/
inductive Release
  | controller (p : Ptr)
  | listener (p : Ptr)
  deriving DecidableEq, Repr

/-- Engine state the manager acts on: the canvas cursor, the posted events (oldest
first), the console lines printed, and the `delete` calls executed. -/
structure World where
  cursor : Point2I
  events : List Event
  console : List String
  released : List Release
  deriving DecidableEq, Repr

/-- `Canvas->setCursorPos`. -/
def setCursorPos (w : World) (p : Point2I) : World := { w with cursor := p }

/-- `Game->postEvent`. -/
def postEvent (w : World) (e : Event) : World := { w with events := w.events ++ [e] }

/-- `Con::printf`. -/
def conPrintf (w : World) (line : String) : World := { w with console := w.console ++ [line] }

/-! ## The manager -/

/-- Data members of `LeapMotionManager`; a null pointer is `none`. -/
structure LeapMotionManager where
  mEnabled : Bool
  mActive : Bool
  mMouseControl : Bool
  mController : Option Ptr
  mListener : Option Ptr
  deriving DecidableEq, Repr

/-- The constructor: `listener` and `controller` are the addresses returned by the two
`new` expressions.  `mMouseControl` is not assigned by the constructor, so its initial
value `mouseControl` is whatever the storage held. -/
def LeapMotionManager.new (listener controller : Ptr) (mouseControl : Bool) :
    LeapMotionManager :=
  { mListener := some listener
    mController := some controller
    mEnabled := false
    mActive := false
    mMouseControl := mouseControl }

/-- `LeapMotionManager::enable`. -/
def LeapMotionManager.enable (m : LeapMotionManager) (enabledState : Bool) :
    LeapMotionManager :=
  { m with mEnabled := enabledState }

/-- `LeapMotionManager::getActive`. -/
def LeapMotionManager.getActive (m : LeapMotionManager) : Bool := m.mActive

/-- `LeapMotionManager::setActive`. -/
def LeapMotionManager.setActive (m : LeapMotionManager) (state : Bool) : LeapMotionManager :=
  { m with mActive := state }

/-- `LeapMotionManager::toggleMouseControl`. -/
def LeapMotionManager.toggleMouseControl (m : LeapMotionManager) (enabledState : Bool) :
    LeapMotionManager :=
  { m with mMouseControl := enabledState }

/-- `LeapMotionManager::getMouseControlToggle`. -/
def LeapMotionManager.getMouseControlToggle (m : LeapMotionManager) : Bool := m.mMouseControl

/-- `LeapMotionManager::disable`: the listener is deleted only inside the branch taken
when the controller pointer is not null. -/
def LeapMotionManager.disable (m : LeapMotionManager) (w : World) :
    LeapMotionManager × World :=
  let mw : LeapMotionManager × World :=
    match m.mController with
    | some c =>
      let m1 := { m with mController := none }
      let w1 := { w with released := w.released ++ [Release.controller c] }
      match m1.mListener with
      | some l =>
        ({ m1 with mListener := none },
         { w1 with released := w1.released ++ [Release.listener l] })
      | none => (m1, w1)
    | none => (m, w)
  ({ mw.1.setActive false with mEnabled := false }, mw.2)

/-- `LeapMotionManager::generateMouseEvent`. -/
def LeapMotionManager.generateMouseEvent (_m : LeapMotionManager) (w : World)
    (controller : Controller) : World :=
  match controller.calibratedScreens with
  | [] => w
  | screen :: _ =>
    match controller.frame.hands with
    | [] => w
    | hand0 :: _ =>
      match hand0.pointables with
      | [] => w
      | firstPointable :: _ =>
        let intersection := controller.intersect screen firstPointable
        if !intersection.isValid then w
        else
          let x : Nat := (F32.mul (F32.ofInt screen.widthPixels) intersection.x).toU32
          let y : Nat :=
            (F32.mul (F32.ofInt screen.heightPixels) (F32.sub F32.one intersection.y)).toU32
          let location : Point2I := { x := toS32 x, y := toS32 y }
          postEvent (setCursorPos w { x := location.x, y := location.y })
            (Event.mouseMove location.x location.y)

/-- Inner loop of `process`: for `f = 0 .. count - 1` print the finger line and default
construct an `InputEvent`; the statements that fill and post it are commented out in
the source, so nothing is posted. -/
def fingerLoop (count : Nat) (w : World) : World :=
  (List.range count).foldl
    (fun acc f => conPrintf acc ("LeapMotionManager::process - Finger: " ++ toString f)) w

/-- Outer loop of `process`: `hands` are the hands from index `h` on. -/
def handLoop : List Hand → Nat → World → World
  | [], _, w => w
  | hand :: rest, h, w =>
    let w1 := conPrintf w ("LeapMotionManager::process - Hand: " ++ toString h)
    handLoop rest (h + 1) (fingerLoop hand.fingers.length w1)

/-- `LeapMotionManager::process`. -/
def LeapMotionManager.process (m : LeapMotionManager) (w : World) (controller : Controller) :
    LeapMotionManager × World :=
  if !m.mEnabled then (m, w)
  else if !m.getActive then (m, w)
  else
    let frame := controller.frame
    if m.getMouseControlToggle then (m, m.generateMouseEvent w controller)
    else if !frame.hands.isEmpty then (m, handLoop frame.hands 0 w)
    else (m, w)

/-! ## The listener

The callbacks act on the global `gLeapMotionManager`, passed here as `m`. -/

/-- `MotionListener::onInit`. -/
def MotionListener.onInit (m : LeapMotionManager) (w : World) (_controller : Controller) :
    LeapMotionManager × World :=
  (m, conPrintf w "MotionListener::onInit()")

/-- `MotionListener::onFrame`. -/
def MotionListener.onFrame (m : LeapMotionManager) (w : World) (controller : Controller) :
    LeapMotionManager × World :=
  m.process w controller

/-- `MotionListener::onConnect`. -/
def MotionListener.onConnect (m : LeapMotionManager) (w : World) (_controller : Controller) :
    LeapMotionManager × World :=
  (m.setActive true, w)

/-- `MotionListener::onDisconnect`. -/
def MotionListener.onDisconnect (m : LeapMotionManager) (w : World)
    (_controller : Controller) : LeapMotionManager × World :=
  (m.setActive false, w)

/-! ## Step relation -/

/-- The calls that drive a manager: the owner calls `enable`, `disable` and
`toggleMouseControl`, the device thread calls the four listener callbacks, and `process`
is public as well as called by `onFrame`.  (`setActive` is called only from `disable`,
`onConnect` and `onDisconnect`.) -/
inductive Call
  | enable (enabledState : Bool)
  | disable
  | toggleMouseControl (enabledState : Bool)
  | process (controller : Controller)
  | onInit (controller : Controller)
  | onFrame (controller : Controller)
  | onConnect (controller : Controller)
  | onDisconnect (controller : Controller)

/-- Effect of one call on the manager and the engine. -/
def step (s : LeapMotionManager × World) : Call → LeapMotionManager × World
  | Call.enable b => (s.1.enable b, s.2)
  | Call.disable => s.1.disable s.2
  | Call.toggleMouseControl b => (s.1.toggleMouseControl b, s.2)
  | Call.process c => s.1.process s.2 c
  | Call.onInit c => MotionListener.onInit s.1 s.2 c
  | Call.onFrame c => MotionListener.onFrame s.1 s.2 c
  | Call.onConnect c => MotionListener.onConnect s.1 s.2 c
  | Call.onDisconnect c => MotionListener.onDisconnect s.1 s.2 c

/-- Effect of a sequence of calls, first call first. -/
def run (s : LeapMotionManager × World) (calls : List Call) : LeapMotionManager × World :=
  calls.foldl step s

/-- Whether a call is the connect callback. -/
def Call.isConnect : Call → Bool
  | Call.onConnect _ => true
  | _ => false

/-- A manager state is reachable when some sequence of calls leads to it from a freshly
constructed manager. -/
def Reachable (m : LeapMotionManager) : Prop :=
  ∃ (listener controller : Ptr) (mouseControl : Bool) (w : World) (calls : List Call),
    (run (LeapMotionManager.new listener controller mouseControl, w) calls).1 = m

/-- Total number of pointables over all hands of a frame. -/
def Frame.pointableCount (f : Frame) : Nat :=
  (f.hands.map (fun h => h.pointables.length)).sum

/-- An engine with the cursor at the origin, an empty event queue and an empty console. -/
def sampleWorld : World :=
  { cursor := { x := 0, y := 0 }, events := [], console := [], released := [] }

/-- A constructed manager (listener at address 1, controller at address 2) after
`enable(true)`, `onConnect` and `toggleMouseControl(mouse)`. -/
def sampleManager (mouse : Bool) : LeapMotionManager :=
  { mEnabled := true, mActive := true, mMouseControl := mouse,
    mController := some 2, mListener := some 1 }

/-- A snapshot with one calibrated screen of `width` by `height` pixels and one hand
with one finger, whose intersection with the screen is `v`. -/
def sampleController (width height : Int) (v : Vector) : Controller :=
  { calibratedScreens := [{ id := 0, widthPixels := width, heightPixels := height }]
    frame := { hands := [{ fingers := [{ id := 0 }], pointables := [{ id := 0 }] }] }
    intersect := fun _ _ => v }

/-- The vector with all components NaN that `intersect` returns when the pointable does
not point at the screen. -/
def nanVector : Vector := { x := F32.nan, y := F32.nan, z := F32.nan }

/-- A snapshot with no calibrated screen and no hand. -/
def emptyController : Controller :=
  { calibratedScreens := [], frame := { hands := [] }, intersect := fun _ _ => nanVector }

/-- The centre of the screen in normalized coordinates. -/
def centreVector : Vector := { x := F32.half, y := F32.half, z := F32.zero }

/-- The binary32 numbers `x = 8982801 * 2^(-24)` (about `0.5354`) and `y = 0`. -/
def offCentreVector : Vector :=
  { x := F32.finite false (8982801 * 2 ^ 125), y := F32.zero, z := F32.zero }

/-! ## Gating (C1) -/

/-- C1: when the manager is not enabled or not active, `process` returns the manager
and the engine state it was given: no event is posted, the cursor is not moved, nothing
is printed and no flag changes, whatever the frame and the mouse-control flag. -/
theorem process_noop_unless_enabled_and_active (m : LeapMotionManager) (w : World)
    (controller : Controller) (h : m.mEnabled = false ∨ m.mActive = false) :
    m.process w controller = (m, w) := by
  unfold LeapMotionManager.process LeapMotionManager.getActive
  rcases h with h | h
  · simp [h]
  · simp [h]

/-! ## Shape of the two translators -/

/-- The finger loop only prints. -/
theorem fingerLoop_effect (count : Nat) (w : World) :
    ∃ lines : List String, fingerLoop count w = { w with console := w.console ++ lines } := by
  unfold fingerLoop
  induction List.range count generalizing w with
  | nil => exact ⟨[], by simp⟩
  | cons f fs ih =>
    obtain ⟨lines, hl⟩ := ih (conPrintf w ("LeapMotionManager::process - Finger: " ++ toString f))
    refine ⟨("LeapMotionManager::process - Finger: " ++ toString f) :: lines, ?_⟩
    rw [List.foldl_cons, hl]
    simp [conPrintf]

/-- The hand loop only prints. -/
theorem handLoop_effect (hands : List Hand) (h : Nat) (w : World) :
    ∃ lines : List String, handLoop hands h w = { w with console := w.console ++ lines } := by
  induction hands generalizing h w with
  | nil => exact ⟨[], by simp [handLoop]⟩
  | cons hand rest ih =>
    obtain ⟨l1, h1⟩ := fingerLoop_effect hand.fingers.length
      (conPrintf w ("LeapMotionManager::process - Hand: " ++ toString h))
    obtain ⟨l2, h2⟩ := ih (h + 1) (fingerLoop hand.fingers.length
      (conPrintf w ("LeapMotionManager::process - Hand: " ++ toString h)))
    refine ⟨("LeapMotionManager::process - Hand: " ++ toString h) :: (l1 ++ l2), ?_⟩
    simp only [handLoop]
    rw [h2, h1]
    simp [conPrintf]

/-- The mouse translator either does nothing or moves the cursor and posts one
`MouseMoveEvent` carrying the new cursor position. -/
theorem generateMouseEvent_effect (m : LeapMotionManager) (w : World) (controller : Controller) :
    m.generateMouseEvent w controller = w ∨
      ∃ x y : Int, m.generateMouseEvent w controller =
        { w with cursor := { x := x, y := y }, events := w.events ++ [Event.mouseMove x y] } := by
  unfold LeapMotionManager.generateMouseEvent
  split
  · exact Or.inl rfl
  · split
    · exact Or.inl rfl
    · split
      · exact Or.inl rfl
      · dsimp only
        split
        · exact Or.inl rfl
        · exact Or.inr ⟨_, _, rfl⟩

/-! ## Mode dispatch (C2, C6, C7) -/

/-- C2: for an enabled and active manager in mouse-control mode, `process` is exactly
`generateMouseEvent` on the same input, and that call either changes nothing or sets the
cursor and appends one `MouseMoveEvent` with the same coordinates; the console is left
as it was, so the hand and finger loop did not run, and no `InputEvent` is posted. -/
theorem process_mouse_mode_is_generateMouseEvent (m : LeapMotionManager) (w : World)
    (controller : Controller) (he : m.mEnabled = true) (ha : m.mActive = true)
    (hm : m.mMouseControl = true) :
    m.process w controller = (m, m.generateMouseEvent w controller) ∧
      ((m.process w controller).2 = w ∨
        ∃ x y : Int, (m.process w controller).2 =
          { w with cursor := { x := x, y := y }, events := w.events ++ [Event.mouseMove x y] }) := by
  have hp : m.process w controller = (m, m.generateMouseEvent w controller) := by
    simp [LeapMotionManager.process, LeapMotionManager.getActive,
      LeapMotionManager.getMouseControlToggle, he, ha, hm]
  refine ⟨hp, ?_⟩
  rw [hp]
  exact generateMouseEvent_effect m w controller

/-- C6: when some component of the intersection of the first pointable of the first
hand with the first calibrated screen is not finite, `generateMouseEvent` returns the
engine state unchanged, so no event is posted and the cursor stays where it was; the
same holds for `process` in mouse-control mode. -/
theorem generateMouseEvent_invalid_intersection_noop (m : LeapMotionManager) (w : World)
    (controller : Controller) (screen : Screen) (screens : List Screen) (hand0 : Hand)
    (hands : List Hand) (p : Pointable) (ps : List Pointable)
    (hs : controller.calibratedScreens = screen :: screens)
    (hh : controller.frame.hands = hand0 :: hands)
    (hp : hand0.pointables = p :: ps)
    (hv : (controller.intersect screen p).x.isFinite = false ∨
      (controller.intersect screen p).y.isFinite = false ∨
      (controller.intersect screen p).z.isFinite = false) :
    m.generateMouseEvent w controller = w ∧
      (m.mMouseControl = true → m.process w controller = (m, w)) := by
  have hinv : (controller.intersect screen p).isValid = false := by
    unfold Vector.isValid
    rcases hv with h | h | h <;> simp [h]
  have hg : m.generateMouseEvent w controller = w := by
    simp [LeapMotionManager.generateMouseEvent, hs, hh, hp, hinv]
  refine ⟨hg, fun hm => ?_⟩
  unfold LeapMotionManager.process LeapMotionManager.getActive
    LeapMotionManager.getMouseControlToggle
  simp only [hm, hg]
  split
  · rfl
  · split <;> rfl

/-- C7: for an enabled and active manager, a frame without hands makes `process`
return the manager and engine state unchanged in either mode; in mouse-control mode the
same holds when there is no calibrated screen and when the first hand has no pointable. -/
theorem process_device_absent_noop (m : LeapMotionManager) (w : World)
    (controller : Controller) (he : m.mEnabled = true) (ha : m.mActive = true) :
    (controller.frame.hands = [] → m.process w controller = (m, w)) ∧
      (m.mMouseControl = true → controller.calibratedScreens = [] →
        m.process w controller = (m, w)) ∧
      (m.mMouseControl = true → ∀ (hand0 : Hand) (hands : List Hand),
        controller.frame.hands = hand0 :: hands → hand0.pointables = [] →
        m.process w controller = (m, w)) := by
  refine ⟨fun hh => ?_, fun hm hs => ?_, fun hm hand0 hands hh hp => ?_⟩
  · cases hmc : m.mMouseControl
    · simp [LeapMotionManager.process, LeapMotionManager.getActive,
        LeapMotionManager.getMouseControlToggle, he, ha, hmc, hh]
    · have hg : m.generateMouseEvent w controller = w := by
        unfold LeapMotionManager.generateMouseEvent
        split
        · rfl
        · simp [hh]
      simp [LeapMotionManager.process, LeapMotionManager.getActive,
        LeapMotionManager.getMouseControlToggle, he, ha, hmc, hg]
  · simp [LeapMotionManager.process, LeapMotionManager.getActive,
      LeapMotionManager.getMouseControlToggle, LeapMotionManager.generateMouseEvent,
      he, ha, hm, hs]
  · have hg : m.generateMouseEvent w controller = w := by
      unfold LeapMotionManager.generateMouseEvent
      split
      · rfl
      · simp [hh, hp]
    simp [LeapMotionManager.process, LeapMotionManager.getActive,
      LeapMotionManager.getMouseControlToggle, he, ha, hm, hg]

/-- Witness of C1: a manager that is disabled ignores a frame with a hand and a valid
intersection. -/
theorem process_noop_unless_enabled_and_active_witness :
    ({ sampleManager true with mEnabled := false }).process sampleWorld
        (sampleController 1920 1080 centreVector) =
      ({ sampleManager true with mEnabled := false }, sampleWorld) :=
  process_noop_unless_enabled_and_active _ _ _ (Or.inl rfl)

/-- Witness of C2. -/
theorem process_mouse_mode_is_generateMouseEvent_witness :
    (sampleManager true).process sampleWorld (sampleController 1920 1080 centreVector) =
        (sampleManager true, (sampleManager true).generateMouseEvent sampleWorld
          (sampleController 1920 1080 centreVector)) ∧
      (((sampleManager true).process sampleWorld (sampleController 1920 1080 centreVector)).2 =
          sampleWorld ∨
        ∃ x y : Int,
          ((sampleManager true).process sampleWorld (sampleController 1920 1080 centreVector)).2 =
            { sampleWorld with cursor := { x := x, y := y },
                               events := sampleWorld.events ++ [Event.mouseMove x y] }) :=
  process_mouse_mode_is_generateMouseEvent (sampleManager true) sampleWorld
    (sampleController 1920 1080 centreVector) rfl rfl rfl

/-- Witness of C6: a screen, a hand and a finger are present and the intersection is NaN. -/
theorem generateMouseEvent_invalid_intersection_noop_witness :
    (sampleManager true).generateMouseEvent sampleWorld (sampleController 1920 1080 nanVector) =
        sampleWorld ∧
      ((sampleManager true).mMouseControl = true →
        (sampleManager true).process sampleWorld (sampleController 1920 1080 nanVector) =
          (sampleManager true, sampleWorld)) :=
  generateMouseEvent_invalid_intersection_noop (sampleManager true) sampleWorld
    (sampleController 1920 1080 nanVector) _ _ _ _ _ _ rfl rfl rfl (Or.inl rfl)

/-- Witness of C7: no screen and no hand, in raw mode. -/
theorem process_device_absent_noop_witness :
    (sampleManager false).process sampleWorld emptyController = (sampleManager false, sampleWorld) :=
  (process_device_absent_noop (sampleManager false) sampleWorld emptyController rfl rfl).1 rfl

/-! ## Raw hand and finger path (C3) -/

/-- In raw mode `process` only prints: the event queue, the cursor and the manager are
left as they were. -/
theorem process_raw_mode_effect (m : LeapMotionManager) (w : World) (controller : Controller)
    (hm : m.mMouseControl = false) :
    ∃ lines : List String,
      m.process w controller = (m, { w with console := w.console ++ lines }) := by
  unfold LeapMotionManager.process LeapMotionManager.getActive
    LeapMotionManager.getMouseControlToggle
  simp only [hm]
  split
  · exact ⟨[], by simp⟩
  · split
    · exact ⟨[], by simp⟩
    · split
      · rename_i hc
        simp at hc
      · split
        · obtain ⟨lines, hl⟩ := handLoop_effect controller.frame.hands 0 w
          exact ⟨lines, by rw [hl]⟩
        · exact ⟨[], by simp⟩

/-- C3 at a frame with one hand holding one finger, for an enabled and active manager
with mouse control off: the frame has one pointable and `process` posts no event. -/
theorem process_raw_mode_posts_no_event :
    (sampleController 1920 1080 centreVector).frame.pointableCount = 1 ∧
      ((sampleManager false).process sampleWorld
        (sampleController 1920 1080 centreVector)).2.events = [] := by
  obtain ⟨lines, hl⟩ := process_raw_mode_effect (sampleManager false) sampleWorld
    (sampleController 1920 1080 centreVector) rfl
  refine ⟨by decide, ?_⟩
  rw [hl]
  rfl

/-! ## Lifecycle (C8, C9, C10) -/

/-- The first component of `process` is the manager it was called on. -/
theorem process_fst (m : LeapMotionManager) (w : World) (controller : Controller) :
    (m.process w controller).1 = m := by
  unfold LeapMotionManager.process
  split
  · rfl
  · split
    · rfl
    · dsimp only
      split
      · rfl
      · split <;> rfl

/-- A freshly constructed manager is reachable. -/
theorem reachable_new (listener controller : Ptr) (mouseControl : Bool) :
    Reachable (LeapMotionManager.new listener controller mouseControl) :=
  ⟨listener, controller, mouseControl, sampleWorld, [], rfl⟩

/-- C9: from every manager state `onConnect` sets `active` and changes nothing else,
`onDisconnect` clears `active` and changes nothing else (so `onConnect` followed by
`onDisconnect` leaves `active = false`), and `onInit` leaves the manager as it was; none
of the three changes `enabled` or the mouse-control flag. -/
theorem listener_transitions (m : LeapMotionManager) (w : World) (c1 c2 : Controller) :
    (MotionListener.onConnect m w c1).1.mActive = true ∧
      (MotionListener.onDisconnect (MotionListener.onConnect m w c1).1
        (MotionListener.onConnect m w c1).2 c2).1.mActive = false ∧
      (MotionListener.onInit m w c1).1 = m ∧
      MotionListener.onConnect m w c1 = ({ m with mActive := true }, w) ∧
      MotionListener.onDisconnect m w c1 = ({ m with mActive := false }, w) ∧
      ((MotionListener.onConnect m w c1).1.mEnabled = m.mEnabled ∧
        (MotionListener.onConnect m w c1).1.mMouseControl = m.mMouseControl) ∧
      ((MotionListener.onDisconnect m w c1).1.mEnabled = m.mEnabled ∧
        (MotionListener.onDisconnect m w c1).1.mMouseControl = m.mMouseControl) ∧
      ((MotionListener.onInit m w c1).1.mEnabled = m.mEnabled ∧
        (MotionListener.onInit m w c1).1.mMouseControl = m.mMouseControl) := by
  simp [MotionListener.onConnect, MotionListener.onDisconnect, MotionListener.onInit,
    LeapMotionManager.setActive]

/-- A call other than the connect callback keeps `active = false`. -/
theorem step_keeps_inactive (s : LeapMotionManager × World) (call : Call)
    (hs : s.1.mActive = false) (hc : call.isConnect = false) :
    (step s call).1.mActive = false := by
  cases call with
  | enable b => exact hs
  | toggleMouseControl b => exact hs
  | process c => simpa [step, process_fst] using hs
  | onInit c => exact hs
  | onFrame c => simpa [step, MotionListener.onFrame, process_fst] using hs
  | onConnect c => simp [Call.isConnect] at hc
  | onDisconnect c => rfl
  | disable => rfl

/-- C10: the constructed manager has `enabled = false` and `active = false`; from a
state with `active = false` every call other than `onConnect` (`enable`, `disable`,
`toggleMouseControl`, `process`, `onInit`, `onFrame`, `onDisconnect`) leaves
`active = false`, hence so does every sequence of such calls from the constructed
state; and after `disable` or `onDisconnect` `active` is false whatever it was. -/
theorem active_set_only_by_connect (listener controller : Ptr) (mouseControl : Bool) :
    (LeapMotionManager.new listener controller mouseControl).mEnabled = false ∧
      (LeapMotionManager.new listener controller mouseControl).mActive = false ∧
      (∀ (s : LeapMotionManager × World) (call : Call), s.1.mActive = false →
        call.isConnect = false → (step s call).1.mActive = false) ∧
      (∀ (w : World) (calls : List Call), (∀ call ∈ calls, call.isConnect = false) →
        (run (LeapMotionManager.new listener controller mouseControl, w) calls).1.mActive
          = false) ∧
      (∀ (m : LeapMotionManager) (w : World), (m.disable w).1.mActive = false) ∧
      (∀ (m : LeapMotionManager) (w : World) (c : Controller),
        (MotionListener.onDisconnect m w c).1.mActive = false) := by
  refine ⟨rfl, rfl, step_keeps_inactive, ?_, fun _ _ => rfl, fun _ _ _ => rfl⟩
  intro w calls
  have key : ∀ (calls : List Call) (s : LeapMotionManager × World), s.1.mActive = false →
      (∀ call ∈ calls, call.isConnect = false) → (run s calls).1.mActive = false := by
    intro calls
    induction calls with
    | nil => intro s hs _; exact hs
    | cons call rest ih =>
      intro s hs hall
      exact ih (step s call) (step_keeps_inactive s call hs (hall call (by simp)))
        (fun a ha => hall a (by simp [ha]))
  exact key calls _ rfl

/-- Witness of C10: `enable(true)`, a frame, and `toggleMouseControl(true)` on a
constructed manager leave it inactive. -/
theorem active_set_only_by_connect_witness :
    (run (LeapMotionManager.new 1 2 false, sampleWorld)
      [Call.enable true, Call.onFrame (sampleController 1920 1080 centreVector),
        Call.toggleMouseControl true]).1.mActive = false :=
  (active_set_only_by_connect 1 2 false).2.2.2.1 sampleWorld
    [Call.enable true, Call.onFrame (sampleController 1920 1080 centreVector),
      Call.toggleMouseControl true] (by simp [Call.isConnect])

/-! ## Facts about binary32 rounding -/

/-- The bit length of zero is zero, whatever the fuel. -/
theorem bitLengthAux_zero (fuel : Nat) : bitLengthAux fuel 0 = 0 := by
  cases fuel <;> simp [bitLengthAux]

/-- With enough fuel, `n` has exactly `bitLengthAux fuel n` binary digits. -/
theorem bitLengthAux_spec (fuel n : Nat) (h : n ≤ fuel) :
    n < 2 ^ bitLengthAux fuel n ∧ (n ≠ 0 → 2 ^ (bitLengthAux fuel n - 1) ≤ n) := by
  induction fuel generalizing n with
  | zero =>
    have : n = 0 := by omega
    subst this
    simp [bitLengthAux]
  | succ fuel ih =>
    by_cases hn : n = 0
    · subst hn
      simp [bitLengthAux]
    · have hhalf : n / 2 ≤ fuel := by omega
      obtain ⟨h1, h2⟩ := ih (n / 2) hhalf
      simp only [bitLengthAux, hn, if_false, Nat.add_sub_cancel]
      refine ⟨?_, fun _ => ?_⟩
      · rw [pow_succ]
        omega
      · by_cases hz : n / 2 = 0
        · rw [hz, bitLengthAux_zero]
          simp
          omega
        · have h3 := h2 hz
          have hk : bitLengthAux fuel (n / 2) ≠ 0 := by
            intro h0
            rw [h0] at h1
            simp at h1
            exact hz h1
          obtain ⟨k, hk'⟩ := Nat.exists_eq_succ_of_ne_zero hk
          rw [hk'] at h3 ⊢
          simp only [Nat.succ_sub_one] at h3
          rw [pow_succ]
          omega

/-- Every number is below two to its bit length. -/
theorem lt_two_pow_bitLength (n : Nat) : n < 2 ^ bitLength n :=
  (bitLengthAux_spec n n (Nat.le_refl n)).1

/-- A nonzero number is at least two to its bit length minus one. -/
theorem two_pow_bitLength_pred_le (n : Nat) (h : n ≠ 0) : 2 ^ (bitLength n - 1) ≤ n :=
  (bitLengthAux_spec n n (Nat.le_refl n)).2 h

/-- A number below `2^t` has at most `t` binary digits. -/
theorem bitLength_le_of_lt (n t : Nat) (h : n < 2 ^ t) : bitLength n ≤ t := by
  by_cases hn : n = 0
  · subst hn
    simp [bitLength, bitLengthAux_zero]
  · by_contra hlt
    have h1 : t ≤ bitLength n - 1 := by omega
    have h2 : 2 ^ t ≤ 2 ^ (bitLength n - 1) := Nat.pow_le_pow_right (by norm_num) h1
    have h3 := two_pow_bitLength_pred_le n hn
    omega

/-- Rounding is exact on a value that has at most 24 significant bits above bit `j`
and no bit below it, when `j` is at least the number `d` of bits that must go. -/
theorem roundMag_exact (n d j : Nat) (hd : d ≤ j) (hdvd : 2 ^ j ∣ n) (hlt : n < 2 ^ (24 + j)) :
    roundMag n d = n / 2 ^ d := by
  have hL : bitLength n ≤ 24 + j := bitLength_le_of_lt n (24 + j) hlt
  have hsj : max d (bitLength n - 24) ≤ j := by
    rw [max_le_iff]
    omega
  have hds : d ≤ max d (bitLength n - 24) := le_max_left _ _
  unfold roundMag
  generalize max d (bitLength n - 24) = s at hsj hds
  obtain ⟨k, hk⟩ := (pow_dvd_pow 2 hsj).trans hdvd
  have hpos : 0 < 2 ^ s := Nat.two_pow_pos s
  have hr : n % 2 ^ s = 0 := by rw [hk]; exact Nat.mul_mod_right _ _
  have hq : n / 2 ^ s = k := by rw [hk]; exact Nat.mul_div_cancel_left k hpos
  simp only [hr, hq]
  have hcond : ¬ (2 ^ s < 2 * 0 ∨ (2 * 0 = 2 ^ s ∧ k % 2 = 1)) := by
    rintro (h | ⟨h, _⟩) <;> omega
  rw [if_neg hcond]
  have hsplit : 2 ^ s = 2 ^ d * 2 ^ (s - d) := by
    rw [← pow_add]
    congr 1
    omega
  rw [hk, hsplit, Nat.mul_assoc, Nat.mul_div_cancel_left _ (Nat.two_pow_pos d)]
  exact Nat.mul_comm _ _

/-- A crude bound on the rounded magnitude: rounding at most doubles the value, up to one
unit of `2^(-149)`. -/
theorem roundMag_le (n d : Nat) : roundMag n d * 2 ^ d ≤ 2 * n + 2 ^ d := by
  have hds : d ≤ max d (bitLength n - 24) := le_max_left _ _
  have hs2 : 2 ^ max d (bitLength n - 24) ≤ n + 2 ^ d := by
    rcases max_cases d (bitLength n - 24) with ⟨h, _⟩ | ⟨h, hlt⟩
    · rw [h]; omega
    · rw [h]
      have hn : n ≠ 0 := by
        intro h0
        subst h0
        simp [bitLength, bitLengthAux_zero] at hlt
      have h1 := two_pow_bitLength_pred_le n hn
      have h2 : 2 ^ (bitLength n - 24) ≤ 2 ^ (bitLength n - 1) :=
        Nat.pow_le_pow_right (by norm_num) (by omega)
      exact Nat.le_add_right_of_le (Nat.le_trans h2 h1)
  unfold roundMag
  generalize max d (bitLength n - 24) = s at hs2 hds
  have hq : n / 2 ^ s * 2 ^ s ≤ n := Nat.div_mul_le_self n (2 ^ s)
  have hsplit : 2 ^ (s - d) * 2 ^ d = 2 ^ s := by
    rw [← pow_add]
    congr 1
    omega
  simp only []
  rw [Nat.mul_assoc, hsplit]
  split
  · rw [Nat.add_mul]
    omega
  · omega

/-- Rounding is exact on `w * 2^k` when `w` is at most `2^24`. -/
theorem roundMag_small (w k d : Nat) (hw : w ≤ 2 ^ 24) (hd : d ≤ k) :
    roundMag (w * 2 ^ k) d = w * 2 ^ (k - d) := by
  have hsplit : 2 ^ k = 2 ^ d * 2 ^ (k - d) := by
    rw [← pow_add]
    congr 1
    omega
  have hdiv : w * 2 ^ k / 2 ^ d = w * 2 ^ (k - d) := by
    rw [hsplit, Nat.mul_left_comm, Nat.mul_div_cancel_left _ (Nat.two_pow_pos d)]
  rcases Nat.lt_or_ge w (2 ^ 24) with hlt | hge
  · rw [roundMag_exact (w * 2 ^ k) d k hd (Dvd.intro_left w rfl), hdiv]
    rw [pow_add]
    exact Nat.mul_lt_mul_of_pos_right hlt (Nat.two_pow_pos k)
  · have hw24 : w = 2 ^ 24 := Nat.le_antisymm hw hge
    rw [roundMag_exact (w * 2 ^ k) d (k + 1) (by omega), hdiv]
    · rw [hw24, ← pow_add]
      exact pow_dvd_pow 2 (by omega)
    · rw [hw24, ← pow_add]
      exact Nat.pow_lt_pow_right (by norm_num) (by omega)

/-- Zero rounds to zero. -/
theorem roundMag_zero (d : Nat) : roundMag 0 d = 0 := by
  simpa using roundMag_small 0 d d (by norm_num) (Nat.le_refl d)

/-- The conversion `int -> float` is exact on `0 .. 2^24`. -/
theorem ofInt_exact (w : Nat) (hw : w ≤ 2 ^ 24) :
    F32.ofInt (w : Int) = F32.finite false (w * 2 ^ 149) := by
  have hm : roundMag (w * 2 ^ 149) 0 = w * 2 ^ 149 := by
    simpa using roundMag_small w 149 0 hw (Nat.zero_le _)
  have hlt : w * 2 ^ 149 < 2 ^ 277 := by
    calc w * 2 ^ 149 ≤ 2 ^ 24 * 2 ^ 149 := Nat.mul_le_mul_right _ hw
      _ < 2 ^ 277 := by norm_num
  have hneg : decide ((w : Int) < 0) = false := by simp
  unfold F32.ofInt roundNearestEven
  rw [Int.natAbs_ofNat, hm, if_pos hlt, hneg]

/-- The product of two finite values is the rounded exact product. -/
theorem mul_finite (s t : Bool) (a b : Nat) :
    F32.mul (F32.finite s a) (F32.finite t b) = roundNearestEven (xor s t) (a * b) 149 := rfl

/-- The product of an integer in `0 .. 2^24` with the power of two `2^(e - 149)` is
exact, for `e` up to `149`. -/
theorem mul_pow_two_exact (w e : Nat) (hw : w ≤ 2 ^ 24) (he : e ≤ 149) :
    F32.mul (F32.ofInt (w : Int)) (F32.finite false (2 ^ e)) = F32.finite false (w * 2 ^ e) := by
  have hm : roundMag (w * 2 ^ 149 * 2 ^ e) 149 = w * 2 ^ e := by
    rw [Nat.mul_assoc, ← pow_add]
    simpa using roundMag_small w (149 + e) 149 hw (Nat.le_add_right _ _)
  have hlt : w * 2 ^ e < 2 ^ 277 := by
    calc w * 2 ^ e ≤ 2 ^ 24 * 2 ^ 149 :=
          Nat.mul_le_mul hw (Nat.pow_le_pow_right (by norm_num) he)
      _ < 2 ^ 277 := by norm_num
  rw [ofInt_exact w hw, mul_finite]
  unfold roundNearestEven
  rw [hm, if_pos hlt]
  rfl

/-- Truncation of a nonnegative finite value. -/
theorem truncate_finite_false (mag : Nat) :
    (F32.finite false mag).truncate = ((mag / 2 ^ 149 : Nat) : Int) := rfl

/-- The chain `float -> unsigned int -> S32` returns the truncated value when that value
lies in `0 .. 2^31 - 1`. -/
theorem toS32_toU32 (f : F32) (h0 : 0 ≤ f.truncate) (h1 : f.truncate < 2 ^ 31) :
    toS32 f.toU32 = f.truncate := by
  have hmod : f.truncate % 2 ^ 32 = f.truncate :=
    Int.emod_eq_of_lt h0 (by omega)
  have hnat : ((f.truncate.toNat : Nat) : Int) = f.truncate := Int.toNat_of_nonneg h0
  have hlt : f.truncate.toNat < 2 ^ 31 := by omega
  unfold toS32 F32.toU32
  rw [hmod, Nat.mod_eq_of_lt (by omega), if_pos hlt, hnat]

/-- The pixel computed from an integer in `0 .. 2^24` and a nonnegative factor of at
most `2 + 2^(-149)` is finite, and its truncation lies in `0 .. 2^31 - 1`: the
conversions to `unsigned int` and to `S32` are then defined and do not wrap. -/
theorem mul_ofInt_truncate_range (w : Nat) (hw : w ≤ 2 ^ 24) (s : Bool) (a : Nat)
    (ha : a ≤ 2 ^ 150 + 1) (hs : s = false ∨ a = 0) :
    0 ≤ (F32.mul (F32.ofInt (w : Int)) (F32.finite s a)).truncate ∧
      (F32.mul (F32.ofInt (w : Int)) (F32.finite s a)).truncate < 2 ^ 31 := by
  have hb := roundMag_le (w * 2 ^ 149 * a) 149
  have hwa : w * a ≤ 2 ^ 24 * (2 ^ 150 + 1) := Nat.mul_le_mul hw ha
  have hre : 2 * (w * 2 ^ 149 * a) + 2 ^ 149 = (2 * (w * a) + 1) * 2 ^ 149 := by ring
  rw [hre] at hb
  have hM : roundMag (w * 2 ^ 149 * a) 149 ≤ 2 * (w * a) + 1 :=
    Nat.le_of_mul_le_mul_right hb (Nat.two_pow_pos 149)
  have hM2 : roundMag (w * 2 ^ 149 * a) 149 < 2 ^ 180 := by
    have : 2 * (2 ^ 24 * (2 ^ 150 + 1)) + 1 < 2 ^ 180 := by norm_num
    omega
  have hfin : roundMag (w * 2 ^ 149 * a) 149 < 2 ^ 277 :=
    Nat.lt_trans hM2 (by norm_num)
  have hdiv : roundMag (w * 2 ^ 149 * a) 149 / 2 ^ 149 < 2 ^ 31 := by
    rw [Nat.div_lt_iff_lt_mul (Nat.two_pow_pos 149)]
    calc roundMag (w * 2 ^ 149 * a) 149 < 2 ^ 180 := hM2
      _ = 2 ^ 31 * 2 ^ 149 := by norm_num
  rw [ofInt_exact w hw, mul_finite]
  unfold roundNearestEven
  rw [if_pos hfin]
  unfold F32.truncate F32.signedMag
  rcases hs with hs | hs
  · subst hs
    simp only [Bool.false_xor, Bool.false_eq_true, if_false]
    exact ⟨Int.natCast_nonneg _, by exact_mod_cast hdiv⟩
  · subst hs
    rw [Nat.mul_zero, roundMag_zero]
    cases s <;> simp

/-- The difference of two finite values. -/
theorem sub_finite (s t : Bool) (a b : Nat) :
    F32.sub (F32.finite s a) (F32.finite t b) =
      if F32.signedMag s a - F32.signedMag t b = 0 then F32.finite (s && !t) 0
      else roundNearestEven (decide (F32.signedMag s a - F32.signedMag t b < 0))
        (F32.signedMag s a - F32.signedMag t b).natAbs 0 := rfl

/-- For `f` in `[0, 1]`, `1.0f - f` is a finite nonnegative value of at most
`2 + 2^(-149)`. -/
theorem sub_one_range (f : F32) (h : f.inUnitInterval = true) :
    ∃ c : Nat, F32.sub F32.one f = F32.finite false c ∧ c ≤ 2 ^ 150 + 1 := by
  cases f with
  | nan => simp [F32.inUnitInterval] at h
  | inf t => simp [F32.inUnitInterval] at h
  | finite t b =>
    have hb : b = 0 ∨ (t = false ∧ b ≤ 2 ^ 149) := by
      unfold F32.inUnitInterval at h
      rw [Bool.or_eq_true, Bool.and_eq_true, beq_iff_eq, decide_eq_true_eq] at h
      rcases h with h | ⟨h1, h2⟩
      · exact Or.inl h
      · exact Or.inr ⟨by simpa using h1, h2⟩
    have hcase : b ≤ 2 ^ 149 ∧ F32.signedMag t b = (b : Int) := by
      rcases hb with hb | ⟨ht, hb⟩
      · subst hb
        exact ⟨Nat.zero_le _, by cases t <;> simp [F32.signedMag]⟩
      · subst ht
        exact ⟨hb, by simp [F32.signedMag]⟩
    obtain ⟨hle, hsm⟩ := hcase
    have hone : F32.signedMag false (2 ^ 149) = ((2 ^ 149 : Nat) : Int) := by
      simp [F32.signedMag]
    unfold F32.one
    rw [sub_finite, hsm, hone]
    have hx : ((2 ^ 149 : Nat) : Int) - (b : Int) = ((2 ^ 149 - b : Nat) : Int) := by
      rw [Nat.cast_sub hle]
    rw [hx]
    by_cases hz : ((2 ^ 149 - b : Nat) : Int) = 0
    · rw [if_pos hz]
      refine ⟨0, ?_, Nat.zero_le _⟩
      have ht : (false && !t) = false := by simp
      rw [ht]
    · rw [if_neg hz]
      have hneg : decide (((2 ^ 149 - b : Nat) : Int) < 0) = false := by
        simp
      rw [hneg, Int.natAbs_ofNat]
      have hr := roundMag_le (2 ^ 149 - b) 0
      have hr2 : roundMag (2 ^ 149 - b) 0 ≤ 2 ^ 150 + 1 := by
        have h150 : (2 : Nat) ^ 150 = 2 * 2 ^ 149 := by norm_num
        rw [pow_zero, Nat.mul_one] at hr
        omega
      have hfin : roundMag (2 ^ 149 - b) 0 < 2 ^ 277 :=
        Nat.lt_of_le_of_lt hr2 (by norm_num)
      refine ⟨roundMag (2 ^ 149 - b) 0, ?_, hr2⟩
      unfold roundNearestEven
      rw [if_pos hfin]

/-! ## Screen-space conversion (C4, C5) -/

/-- With a screen, a hand, a pointable and a valid intersection whose two pixel
coordinates lie in `0 .. 2^31 - 1`, `generateMouseEvent` sets the cursor to those
coordinates and posts one `MouseMoveEvent` carrying them. -/
theorem generateMouseEvent_of_valid (m : LeapMotionManager) (w : World)
    (controller : Controller) (screen : Screen) (screens : List Screen) (hand0 : Hand)
    (hands : List Hand) (p : Pointable) (ps : List Pointable)
    (hs : controller.calibratedScreens = screen :: screens)
    (hh : controller.frame.hands = hand0 :: hands)
    (hp : hand0.pointables = p :: ps)
    (hv : (controller.intersect screen p).isValid = true)
    (hx0 : 0 ≤ pixelX screen (controller.intersect screen p))
    (hx1 : pixelX screen (controller.intersect screen p) < 2 ^ 31)
    (hy0 : 0 ≤ pixelY screen (controller.intersect screen p))
    (hy1 : pixelY screen (controller.intersect screen p) < 2 ^ 31) :
    m.generateMouseEvent w controller =
      { w with
        cursor := { x := pixelX screen (controller.intersect screen p),
                    y := pixelY screen (controller.intersect screen p) }
        events := w.events ++ [Event.mouseMove (pixelX screen (controller.intersect screen p))
          (pixelY screen (controller.intersect screen p))] } := by
  unfold pixelX at hx0 hx1
  unfold pixelY at hy0 hy1
  unfold LeapMotionManager.generateMouseEvent
  rw [hs, hh]
  dsimp only
  rw [hp]
  dsimp only
  rw [hv, toS32_toU32 _ hx0 hx1, toS32_toU32 _ hy0 hy1]
  rfl

/-- For a width or height in `0 .. 2^24` and a normalized coordinate in `[0, 1]`, the
pixel column lies in `0 .. 2^31 - 1`. -/
theorem pixelX_range (screen : Screen) (v : Vector) (h0 : 0 ≤ screen.widthPixels)
    (h1 : screen.widthPixels ≤ 2 ^ 24) (hx : v.x.inUnitInterval = true) :
    0 ≤ pixelX screen v ∧ pixelX screen v < 2 ^ 31 := by
  obtain ⟨wd, hwd⟩ := Int.eq_ofNat_of_zero_le h0
  have hw : wd ≤ 2 ^ 24 := by
    rw [hwd] at h1
    exact_mod_cast h1
  unfold pixelX
  rw [hwd]
  cases hvx : v.x with
  | nan => rw [hvx] at hx; simp [F32.inUnitInterval] at hx
  | inf t => rw [hvx] at hx; simp [F32.inUnitInterval] at hx
  | finite t b =>
    rw [hvx] at hx
    unfold F32.inUnitInterval at hx
    rw [Bool.or_eq_true, Bool.and_eq_true, beq_iff_eq, decide_eq_true_eq] at hx
    refine mul_ofInt_truncate_range wd hw t b ?_ ?_
    · rcases hx with hx | ⟨_, hx⟩
      · rw [hx]; exact Nat.zero_le _
      · exact Nat.le_trans hx (by norm_num)
    · rcases hx with hx | ⟨hx, _⟩
      · exact Or.inr hx
      · exact Or.inl (by simpa using hx)

/-- For a height in `0 .. 2^24` and a normalized coordinate in `[0, 1]`, the pixel row
lies in `0 .. 2^31 - 1`. -/
theorem pixelY_range (screen : Screen) (v : Vector) (h0 : 0 ≤ screen.heightPixels)
    (h1 : screen.heightPixels ≤ 2 ^ 24) (hy : v.y.inUnitInterval = true) :
    0 ≤ pixelY screen v ∧ pixelY screen v < 2 ^ 31 := by
  obtain ⟨ht, hht⟩ := Int.eq_ofNat_of_zero_le h0
  have hw : ht ≤ 2 ^ 24 := by
    rw [hht] at h1
    exact_mod_cast h1
  obtain ⟨c, hc, hcle⟩ := sub_one_range v.y hy
  unfold pixelY
  rw [hht, hc]
  exact mul_ofInt_truncate_range ht hw false c hcle (Or.inl rfl)

/-- At `y = 0` the pixel row of a screen of height `0 .. 2^24` is the height. -/
theorem pixelY_at_zero (screen : Screen) (v : Vector) (h0 : 0 ≤ screen.heightPixels)
    (h1 : screen.heightPixels ≤ 2 ^ 24) (hy : v.y = F32.zero) :
    pixelY screen v = screen.heightPixels := by
  obtain ⟨ht, hht⟩ := Int.eq_ofNat_of_zero_le h0
  have hw : ht ≤ 2 ^ 24 := by
    rw [hht] at h1
    exact_mod_cast h1
  have hsub : F32.sub F32.one F32.zero = F32.finite false (2 ^ 149) := by decide
  unfold pixelY
  rw [hy, hsub, hht, mul_pow_two_exact ht 149 hw (Nat.le_refl _), truncate_finite_false,
    Nat.mul_div_cancel _ (Nat.two_pow_pos 149)]

/-- At a coordinate of `0.5` the truncated product with an integer `n` of `0 .. 2^24`
is `n / 2`. -/
theorem truncate_mul_half (n : Int) (h0 : 0 ≤ n) (h1 : n ≤ 2 ^ 24) :
    (F32.mul (F32.ofInt n) F32.half).truncate = n / 2 := by
  obtain ⟨k, hk⟩ := Int.eq_ofNat_of_zero_le h0
  have hw : k ≤ 2 ^ 24 := by
    rw [hk] at h1
    exact_mod_cast h1
  have hdiv : k * 2 ^ 148 / 2 ^ 149 = k / 2 := by
    have h149 : (2 : Nat) ^ 149 = 2 * 2 ^ 148 := by norm_num
    rw [h149, Nat.mul_div_mul_right _ _ (Nat.two_pow_pos 148)]
  unfold F32.half
  rw [hk, mul_pow_two_exact k 148 hw (by norm_num), truncate_finite_false, hdiv]
  exact Int.natCast_div k 2

/-- C4, amended: on a first screen of `W` by `H` pixels with `0 ≤ W, H ≤ 2^24`, a first
hand with a first pointable, and a valid intersection `(nx, ny)` of that pointable with
that screen with `nx`, `ny` in `[0, 1]`, `generateMouseEvent` sets the cursor to
`(trunc(W * nx), trunc(H * (1 - ny)))`, the products and the difference being the
binary32 operations of the code, and posts exactly one `MouseMoveEvent` with the same
`xPos` and `yPos`; at `ny = 0` the pixel row is `H`.  The other screens, hands and
pointables (`screens`, `hands`, `ps`) do not occur in the result. -/
theorem generateMouseEvent_pixel_formula (m : LeapMotionManager) (w : World)
    (controller : Controller) (screen : Screen) (screens : List Screen) (hand0 : Hand)
    (hands : List Hand) (p : Pointable) (ps : List Pointable)
    (hs : controller.calibratedScreens = screen :: screens)
    (hh : controller.frame.hands = hand0 :: hands)
    (hp : hand0.pointables = p :: ps)
    (hv : (controller.intersect screen p).isValid = true)
    (hx : (controller.intersect screen p).x.inUnitInterval = true)
    (hy : (controller.intersect screen p).y.inUnitInterval = true)
    (hW0 : 0 ≤ screen.widthPixels) (hW : screen.widthPixels ≤ 2 ^ 24)
    (hH0 : 0 ≤ screen.heightPixels) (hH : screen.heightPixels ≤ 2 ^ 24) :
    m.generateMouseEvent w controller =
        { w with
          cursor :=
            { x := (F32.mul (F32.ofInt screen.widthPixels)
                (controller.intersect screen p).x).truncate
              y := (F32.mul (F32.ofInt screen.heightPixels)
                (F32.sub F32.one (controller.intersect screen p).y)).truncate }
          events := w.events ++
            [Event.mouseMove
              (F32.mul (F32.ofInt screen.widthPixels)
                (controller.intersect screen p).x).truncate
              (F32.mul (F32.ofInt screen.heightPixels)
                (F32.sub F32.one (controller.intersect screen p).y)).truncate] } ∧
      ((controller.intersect screen p).y = F32.zero →
        (m.generateMouseEvent w controller).cursor.y = screen.heightPixels) := by
  obtain ⟨hx0, hx1⟩ := pixelX_range screen (controller.intersect screen p) hW0 hW hx
  obtain ⟨hy0, hy1⟩ := pixelY_range screen (controller.intersect screen p) hH0 hH hy
  have hg := generateMouseEvent_of_valid m w controller screen screens hand0 hands p ps
    hs hh hp hv hx0 hx1 hy0 hy1
  refine ⟨hg, fun hz => ?_⟩
  rw [hg]
  exact pixelY_at_zero screen (controller.intersect screen p) hH0 hH hz

/-- C5, amended: on a first screen of `W` by `H` pixels with `0 ≤ W, H ≤ 2^24`, when the
intersection of the first pointable is valid with `x = 0.5` and `y = 0.5`,
`generateMouseEvent` sets the cursor to `(W / 2, H / 2)` (integer quotients) and posts
one `MouseMoveEvent` carrying that point. -/
theorem generateMouseEvent_centre (m : LeapMotionManager) (w : World)
    (controller : Controller) (screen : Screen) (screens : List Screen) (hand0 : Hand)
    (hands : List Hand) (p : Pointable) (ps : List Pointable)
    (hs : controller.calibratedScreens = screen :: screens)
    (hh : controller.frame.hands = hand0 :: hands)
    (hp : hand0.pointables = p :: ps)
    (hv : (controller.intersect screen p).isValid = true)
    (hx : (controller.intersect screen p).x = F32.half)
    (hy : (controller.intersect screen p).y = F32.half)
    (hW0 : 0 ≤ screen.widthPixels) (hW : screen.widthPixels ≤ 2 ^ 24)
    (hH0 : 0 ≤ screen.heightPixels) (hH : screen.heightPixels ≤ 2 ^ 24) :
    m.generateMouseEvent w controller =
      { w with
        cursor := { x := screen.widthPixels / 2, y := screen.heightPixels / 2 }
        events := w.events ++
          [Event.mouseMove (screen.widthPixels / 2) (screen.heightPixels / 2)] } := by
  have hsub : F32.sub F32.one F32.half = F32.half := by decide
  have hpx : pixelX screen (controller.intersect screen p) = screen.widthPixels / 2 := by
    unfold pixelX
    rw [hx]
    exact truncate_mul_half _ hW0 hW
  have hpy : pixelY screen (controller.intersect screen p) = screen.heightPixels / 2 := by
    unfold pixelY
    rw [hy, hsub]
    exact truncate_mul_half _ hH0 hH
  have hg := generateMouseEvent_of_valid m w controller screen screens hand0 hands p ps
    hs hh hp hv (by rw [hpx]; omega) (by rw [hpx]; omega) (by rw [hpy]; omega)
    (by rw [hpy]; omega)
  rw [hg, hpx, hpy]

/-- Witness of C4 (amended): a 1920 by 1080 screen with `nx = 8982801 * 2^(-24)` and
`ny = 0`; the cursor goes to `(1028, 1080)`. -/
theorem generateMouseEvent_pixel_formula_witness :
    (sampleManager true).generateMouseEvent sampleWorld
        (sampleController 1920 1080 offCentreVector) =
      { sampleWorld with cursor := { x := 1028, y := 1080 },
                         events := [Event.mouseMove 1028 1080] } ∧
      ((sampleManager true).generateMouseEvent sampleWorld
        (sampleController 1920 1080 offCentreVector)).cursor.y = 1080 := by
  have h := generateMouseEvent_pixel_formula (sampleManager true) sampleWorld
    (sampleController 1920 1080 offCentreVector) _ _ _ _ _ _ rfl rfl rfl
    (by decide) (by decide) (by decide) (by decide) (by decide) (by decide) (by decide)
  refine ⟨?_, h.2 rfl⟩
  rw [h.1]
  decide

/-- C4 as stated fails on a 1920 by 16777217 screen with `nx = 8982801 * 2^(-24)` and
`ny = 0`: the cursor goes to `(1028, 16777216)`, so the pixel row at `ny = 0` is not the
height `16777217` (the height is not a binary32 number), and the pixel column is not the
truncation `1027` of the exact product `1920 * 8982801 / 2^24` (the binary32 product
rounds up to `1028`). -/
theorem generateMouseEvent_pixel_formula_counterexample :
    ((sampleManager true).generateMouseEvent sampleWorld
        (sampleController 1920 16777217 offCentreVector)).cursor =
        { x := 1028, y := 16777216 } ∧
      ((sampleManager true).generateMouseEvent sampleWorld
        (sampleController 1920 16777217 offCentreVector)).cursor.y ≠ 16777217 ∧
      ((sampleManager true).generateMouseEvent sampleWorld
        (sampleController 1920 16777217 offCentreVector)).cursor.x ≠
          1920 * 8982801 / 2 ^ 24 := by
  decide

/-- Witness of C5 (amended): the centre of a 1920 by 1080 screen is `(960, 540)`. -/
theorem generateMouseEvent_centre_witness :
    (sampleManager true).generateMouseEvent sampleWorld
        (sampleController 1920 1080 centreVector) =
      { sampleWorld with cursor := { x := 960, y := 540 },
                         events := [Event.mouseMove 960 540] } := by
  have h := generateMouseEvent_centre (sampleManager true) sampleWorld
    (sampleController 1920 1080 centreVector) _ _ _ _ _ _ rfl rfl rfl
    (by decide) rfl rfl (by decide) (by decide) (by decide) (by decide)
  rw [h]
  decide

/-- C5 as stated fails on a screen of width `33554438 = 2^25 + 6`: the width lies
midway between the binary32 numbers `33554436` and `33554440` and is converted to the
second, the cursor column is `16777220`, and `33554438 / 2` is `16777219`. -/
theorem generateMouseEvent_centre_counterexample :
    ((sampleManager true).generateMouseEvent sampleWorld
        (sampleController 33554438 1080 centreVector)).cursor =
        { x := 16777220, y := 540 } ∧
      ((sampleManager true).generateMouseEvent sampleWorld
        (sampleController 33554438 1080 centreVector)).cursor ≠
        { x := 33554438 / 2, y := 1080 / 2 } := by
  decide
